import Mathlib

/-!
# Shallow embedding of the keg-scale measurement ledger (src/backend/scale.go)

Weights (Go `float64`) are modelled as rationals: the source only assigns,
copies and compares them, never does float arithmetic on the paths under
study, so an ordered field is a faithful model.  Timestamps (`time.Time`)
are modelled as integers (nanoseconds); each operation receives the instant
of its single conceptual `time.Now()` as a parameter.  The Prometheus
monitor and the logger carry no state relevant to any claim and are elided.
The storage backend is modelled by its observable result: a `Bool` success
flag for writes, an `Option` result for reads.
-/

/-- `OkLimit = 5 * time.Minute`, in nanoseconds (scale.go line 11). -/
def OkLimit : Int := 5 * 60 * 1000000000

/-- The `-9999 * time.Hour` offset used for the far-past sentinel
timestamps in `NewScale`, in nanoseconds. -/
def farPast : Int := 9999 * 3600 * 1000000000

/-- Go struct `Measurement` (scale.go lines 13-17). -/
structure Measurement where
  Index : Int
  Weight : ℚ
  At : Int
deriving DecidableEq

/-- The zero value of the Go `Measurement` struct: unwritten ring slots
hold this value after `make([]Measurement, bufferSize)`. -/
def zeroMeasurement : Measurement := { Index := 0, Weight := 0, At := 0 }

/-- The sentinel returned by `GetMeasurement` when the guard fires
(scale.go lines 139-142): `Measurement{Weight: 0, Index: -1}`, whose
`At` field is the zero value. -/
def sentinelMeasurement : Measurement := { Index := -1, Weight := 0, At := 0 }

/-- Go struct `Pub` (scale.go lines 19-23). -/
structure Pub where
  IsOpen : Bool
  OpenedAt : Int
  ClosedAt : Int
deriving DecidableEq

/-- Go struct `Scale` (scale.go lines 25-42), restricted to the fields the
core operations read or write.  The mutex serialises the operations; the
embedding applies them atomically in sequence, which is exactly the
interleaving semantics the lock enforces. -/
structure Scale where
  Measurements : List Measurement
  index : Int
  size : Int
  valid : Int
  Pub : Pub
  ActiveKeg : Int
  LastOk : Int
  Rssi : ℚ
deriving DecidableEq

/-- The `Scale` literal built in `NewScale` before `loadDataFromStore`
runs (scale.go lines 45-65): empty ring of `bufferSize` zero slots,
cursor `-1`, far-past sentinels for the pub timestamps and `LastOk`. -/
def initScale (bufferSize : Int) (t0 : Int) : Scale :=
  { Measurements := List.replicate bufferSize.toNat zeroMeasurement
    index := -1
    size := bufferSize
    valid := 0
    Pub := { IsOpen := false, OpenedAt := t0 - farPast, ClosedAt := t0 - farPast }
    ActiveKeg := 0
    LastOk := t0 - farPast
    Rssi := 0 }

/-- `loadDataFromStore` (scale.go lines 81-95).  `storeMeasurements` is the
result of `store.GetMeasurements()` (`none` models an error), `storeKeg`
the result of `store.GetActiveKeg()`.  The Go loop
`i := 0; for _, m := range measurements { s.Measurements[i] = m }` never
increments `i`, so every loaded measurement is written to slot 0; the fold
below reproduces that literally.  `valid` is not touched. -/
def loadDataFromStore (s : Scale) (storeMeasurements : Option (List Measurement))
    (storeKeg : Option Int) : Scale :=
  let s1 := match storeMeasurements with
    | none => s
    | some ms =>
        { s with
          index := (ms.length : Int) - 1
          Measurements := ms.foldl (fun acc m => acc.set 0 m) s.Measurements }
  match storeKeg with
  | none => s1
  | some k => { s1 with ActiveKeg := k }

/-- `NewScale` (scale.go lines 44-79): build the empty scale, then
pre-seed from the store.  The background recheck goroutine is modelled by
letting `Op.recheck` appear anywhere in an operation sequence. -/
def NewScale (bufferSize : Int) (t0 : Int)
    (storeMeasurements : Option (List Measurement)) (storeKeg : Option Int) : Scale :=
  loadDataFromStore (initScale bufferSize t0) storeMeasurements storeKeg

/-- `AddMeasurement` (scale.go lines 97-130).  `now` is the instant of the
`time.Now()` inside the critical section; `storeOk` is whether
`store.AddMeasurement` succeeds.  Returns the new state and the Go error
(`none` = `nil`).  Note that on store failure the function returns before
the `valid` increment is reached, while the cursor advance and the slot
write have already happened. -/
def AddMeasurement (s : Scale) (weight : ℚ) (now : Int) (storeOk : Bool) :
    Scale × Option Unit :=
  if weight < 6000 ∨ weight > 65000 then
    (s, none)
  else
    let index1 := s.index + 1
    let index2 := if index1 ≥ (s.Measurements.length : Int) then 0 else index1
    let m : Measurement := { Index := index2, Weight := weight, At := now }
    let s1 : Scale := { s with index := index2
                               Measurements := s.Measurements.set index2.toNat m }
    if storeOk then
      if s1.valid < s1.size then ({ s1 with valid := s1.valid + 1 }, none)
      else (s1, none)
    else
      (s1, some ())

/-- `GetValidCount` (scale.go lines 211-216). -/
def GetValidCount (s : Scale) : Int := s.valid

/-- `GetMeasurement` (scale.go lines 137-150).  Go's `%` on `int` is
truncated division remainder, i.e. `Int.tmod`.  The slice read
`s.Measurements[idx]` is modelled by `getD`; the safety claim shows the
computed index is in range in every reachable state, so the default is
never consulted there. -/
def GetMeasurement (s : Scale) (index : Int) : Measurement :=
  if index > GetValidCount s ∨ index > s.size then
    sentinelMeasurement
  else
    let idx := (s.index - index + s.size).tmod s.size
    s.Measurements.getD idx.toNat zeroMeasurement

/-- `GetLastMeasurement` (scale.go lines 132-134). -/
def GetLastMeasurement (s : Scale) : Measurement := GetMeasurement s 0

/-- `IsOk` (scale.go lines 194-199): `time.Since(s.LastOk) < OkLimit`. -/
def IsOk (s : Scale) (now : Int) : Bool := now - s.LastOk < OkLimit

/-- `Ping` (scale.go lines 159-172): open the pub if it was closed
(stamping `OpenedAt`), and refresh `LastOk`. -/
def Ping (s : Scale) (now : Int) : Scale :=
  let s1 := if !s.Pub.IsOpen then
      { s with Pub := { s.Pub with IsOpen := true, OpenedAt := now } }
    else s
  { s1 with LastOk := now }

/-- `Recheck` (scale.go lines 177-192): when the scale is stale and the
pub is open, close it and backdate `ClosedAt` by `OkLimit`. -/
def Recheck (s : Scale) (now : Int) : Scale :=
  if IsOk s now then s
  else if s.Pub.IsOpen then
    { s with Pub := { s.Pub with IsOpen := false, ClosedAt := now - OkLimit } }
  else s

/-- `SetRssi` (scale.go lines 201-208). -/
def SetRssi (s : Scale) (rssi : ℚ) : Scale := { s with Rssi := rssi }

/-- `SetActiveKeg` (scale.go lines 262-268): returns the store's error. -/
def SetActiveKeg (s : Scale) (keg : Int) (storeOk : Bool) : Scale × Option Unit :=
  ({ s with ActiveKeg := keg }, if storeOk then none else some ())

/-- One mutating operation on the shared scale state, with the instant of
its `time.Now()` where the source reads the clock.  The mutex serialises
these; a reachable state is a fold of such operations. -/
inductive Op where
  | ping (now : Int)
  | recheck (now : Int)
  | add (weight : ℚ) (now : Int) (storeOk : Bool)
  | setRssi (rssi : ℚ)
  | setActiveKeg (keg : Int) (storeOk : Bool)
deriving DecidableEq

/-- Apply one operation to the state. -/
def applyOp (s : Scale) : Op → Scale
  | Op.ping now => Ping s now
  | Op.recheck now => Recheck s now
  | Op.add w now storeOk => (AddMeasurement s w now storeOk).1
  | Op.setRssi r => SetRssi s r
  | Op.setActiveKeg k storeOk => (SetActiveKeg s k storeOk).1

/-- Run a sequence of operations. -/
def runOps (s : Scale) (ops : List Op) : Scale := ops.foldl applyOp s

/-- Append a whole list of (weight, timestamp) pairs with a store that
always succeeds. -/
def addAll (s : Scale) (ws : List (ℚ × Int)) : Scale :=
  ws.foldl (fun acc wt => (AddMeasurement acc wt.1 wt.2 true).1) s

/-- Append a list of (weight, timestamp, persistence-success) triples:
each append's store call may individually succeed or fail. -/
def addAllFlagged (s : Scale) (ws : List (ℚ × Int × Bool)) : Scale :=
  ws.foldl (fun acc wt => (AddMeasurement acc wt.1 wt.2.1 wt.2.2).1) s

/-- The clock never runs backwards across the timed operations: each
operation's `now` is at least the previous one (ties allowed), starting
from the construction instant. -/
def timesOk : Int → List Op → Bool
  | _, [] => true
  | t, Op.ping n :: rest => decide (t ≤ n) && timesOk n rest
  | t, Op.recheck n :: rest => decide (t ≤ n) && timesOk n rest
  | t, Op.add _ n _ :: rest => decide (t ≤ n) && timesOk n rest
  | t, Op.setRssi _ :: rest => timesOk t rest
  | t, Op.setActiveKeg _ _ :: rest => timesOk t rest

/-! ## Structural invariant of the ring buffer -/

/-- The (never-incremented-index) load loop preserves the slice length. -/
theorem length_foldl_set (ms acc : List Measurement) :
    (ms.foldl (fun acc m => acc.set 0 m) acc).length = acc.length := by
  induction ms generalizing acc with
  | nil => rfl
  | cons m rest ih => simpa [List.foldl_cons] using ih (acc.set 0 m)

/-- Invariant of the ring-buffer fields that holds in every state reachable
from `NewScale` with a positive capacity: the slice length agrees with
`size`, `valid` stays within `[0, size]`, the cursor is at least `-1`, and
a negative cursor only occurs while the ledger is still empty. -/
def LedgerInv (s : Scale) : Prop :=
  (s.Measurements.length : Int) = s.size ∧ 1 ≤ s.size ∧ 0 ≤ s.valid ∧
    s.valid ≤ s.size ∧ -1 ≤ s.index ∧ (s.index < 0 → s.valid = 0)

theorem ledgerInv_NewScale (N t0 : Int) (a : Option (List Measurement))
    (b : Option Int) (hN : 1 ≤ N) : LedgerInv (NewScale N t0 a b) := by
  unfold NewScale initScale loadDataFromStore LedgerInv
  cases a with
  | none =>
      cases b <;> simp <;> omega
  | some ms =>
      cases b <;> simp [length_foldl_set] <;> omega

theorem ledgerInv_applyOp (s : Scale) (op : Op) (h : LedgerInv s) :
    LedgerInv (applyOp s op) := by
  obtain ⟨h1, h2, h3, h4, h5, h6⟩ := h
  cases op with
  | ping now =>
      simp only [applyOp, Ping]
      by_cases ho : s.Pub.IsOpen <;> simp [ho, LedgerInv, h1, h2] <;> omega
  | recheck now =>
      simp only [applyOp, Recheck]
      by_cases ho : IsOk s now
      · simpa [ho, LedgerInv, h1, h2] using ⟨h3, h4, h5, h6⟩
      · by_cases hp : s.Pub.IsOpen <;> simp [ho, hp, LedgerInv, h1, h2] <;> omega
  | add w now storeOk =>
      simp only [applyOp, AddMeasurement]
      by_cases hw : w < 6000 ∨ w > 65000
      · simpa [hw, LedgerInv, h1, h2] using ⟨h3, h4, h5, h6⟩
      · simp only [hw, if_false]
        cases storeOk with
        | false =>
            simp only [Bool.false_eq_true, if_false]
            constructor
            · simpa [List.length_set] using h1
            · refine ⟨h2, h3, h4, ?_, ?_⟩ <;>
                by_cases hi : s.index + 1 ≥ (s.Measurements.length : Int) <;>
                  simp [hi] <;> omega
        | true =>
            simp only [if_true]
            by_cases hv : s.valid < s.size <;>
              by_cases hi : s.index + 1 ≥ (s.Measurements.length : Int) <;>
                simp [hv, hi, LedgerInv, List.length_set, h1, h2] <;> omega
  | setRssi r =>
      simpa [applyOp, SetRssi, LedgerInv, h1, h2] using ⟨h3, h4, h5, h6⟩
  | setActiveKeg k storeOk =>
      simpa [applyOp, SetActiveKeg, LedgerInv, h1, h2] using ⟨h3, h4, h5, h6⟩

theorem ledgerInv_runOps (s : Scale) (ops : List Op) (h : LedgerInv s) :
    LedgerInv (runOps s ops) := by
  induction ops generalizing s with
  | nil => exact h
  | cons op rest ih => exact ih (applyOp s op) (ledgerInv_applyOp s op h)


/-! ## The accepted-append step -/

theorem tmod_add_self_of_lt {a b : Int} (h0 : 0 ≤ a) (hb : a < b) :
    (a + b).tmod b = a := by
  rw [Int.tmod_eq_emod (by omega) (by omega)]
  have h : a + b = a + b * 1 := by ring
  rw [h, Int.add_mul_emod_self_left, Int.emod_eq_of_lt h0 hb]

theorem AddMeasurement_size (s : Scale) (w : ℚ) (t : Int) (b : Bool) :
    (AddMeasurement s w t b).1.size = s.size := by
  simp only [AddMeasurement]
  split
  · rfl
  · cases b
    · rfl
    · simp only [if_true]
      split <;> rfl

theorem ledgerInv_add (s : Scale) (w : ℚ) (t : Int) (b : Bool)
    (h : LedgerInv s) : LedgerInv (AddMeasurement s w t b).1 := by
  simpa [applyOp] using ledgerInv_applyOp s (Op.add w t b) h

/-- Reading at relative offset 0 returns the slot under the cursor, when
the cursor points at a real slot. -/
theorem getMeasurement_zero (s : Scale)
    (hlen : (s.Measurements.length : Int) = s.size)
    (hi0 : 0 ≤ s.index) (hilt : s.index < s.size) (hv : 0 ≤ s.valid) :
    GetMeasurement s 0 = s.Measurements.getD s.index.toNat zeroMeasurement := by
  unfold GetMeasurement GetValidCount
  rw [if_neg (by omega)]
  have h : (s.index - 0 + s.size).tmod s.size = s.index := by
    simpa using tmod_add_self_of_lt hi0 hilt
  simp only [h]

/-- After an accepted append with a successful store: the cursor advance,
the saturating `valid` increment, and the offset-0 read-back. -/
theorem AddMeasurement_true_spec (s : Scale) (w : ℚ) (t : Int)
    (hInv : LedgerInv s) (hw1 : 6000 ≤ w) (hw2 : w ≤ 65000) :
    (AddMeasurement s w t true).1.index =
        (if s.index + 1 ≥ s.size then 0 else s.index + 1) ∧
      (AddMeasurement s w t true).1.valid = min (s.valid + 1) s.size ∧
      GetMeasurement (AddMeasurement s w t true).1 0 =
        { Index := (AddMeasurement s w t true).1.index, Weight := w, At := t } := by
  obtain ⟨h1, h2, h3, h4, h5, h6⟩ := hInv
  have hw : ¬ (w < 6000 ∨ w > 65000) := by
    push_neg
    exact ⟨hw1, hw2⟩
  by_cases hwrap : s.index + 1 ≥ (s.Measurements.length : Int)
  · by_cases hvlt : s.valid < s.size
    · simp [AddMeasurement, hw, hwrap, hvlt, GetMeasurement, GetValidCount]
      refine ⟨by rw [if_pos (by omega)], by omega, ?_⟩
      rw [if_neg (by omega), List.getElem?_set_self (by omega), Option.getD_some]
    · simp [AddMeasurement, hw, hwrap, hvlt, GetMeasurement, GetValidCount]
      refine ⟨by rw [if_pos (by omega)], by omega, ?_⟩
      rw [if_neg (by omega), List.getElem?_set_self (by omega), Option.getD_some]
  · have ht : (s.index + 1 + s.size).tmod s.size = s.index + 1 :=
      tmod_add_self_of_lt (by omega) (by omega)
    by_cases hvlt : s.valid < s.size
    · simp [AddMeasurement, hw, hwrap, hvlt, GetMeasurement, GetValidCount]
      refine ⟨by rw [if_neg (by omega)], by omega, ?_⟩
      rw [if_neg (by omega), ht, List.getElem?_set_self (by omega), Option.getD_some]
    · simp [AddMeasurement, hw, hwrap, hvlt, GetMeasurement, GetValidCount]
      refine ⟨by rw [if_neg (by omega)], by omega, ?_⟩
      rw [if_neg (by omega), ht, List.getElem?_set_self (by omega), Option.getD_some]

/-! ## Sequences of accepted appends -/

theorem addAll_cons (s : Scale) (wt : ℚ × Int) (ws : List (ℚ × Int)) :
    addAll s (wt :: ws) = addAll (AddMeasurement s wt.1 wt.2 true).1 ws := rfl

theorem addAll_append_single (s : Scale) (ws : List (ℚ × Int)) (x : ℚ × Int) :
    addAll s (ws ++ [x]) = (AddMeasurement (addAll s ws) x.1 x.2 true).1 := by
  simp [addAll, List.foldl_append]

theorem ledgerInv_addAll (s : Scale) (ws : List (ℚ × Int)) (h : LedgerInv s) :
    LedgerInv (addAll s ws) := by
  induction ws generalizing s with
  | nil => exact h
  | cons wt rest ih =>
      rw [addAll_cons]
      exact ih _ (ledgerInv_add s wt.1 wt.2 true h)

theorem addAll_size (s : Scale) (ws : List (ℚ × Int)) :
    (addAll s ws).size = s.size := by
  induction ws generalizing s with
  | nil => rfl
  | cons wt rest ih =>
      rw [addAll_cons, ih, AddMeasurement_size]

/-- `valid` after a run of in-range appends with a healthy store: it grows
by one per append and saturates at `size`. -/
theorem addAll_valid (ws : List (ℚ × Int)) (s : Scale) (hInv : LedgerInv s)
    (hrange : ∀ wt ∈ ws, 6000 ≤ wt.1 ∧ wt.1 ≤ 65000) :
    (addAll s ws).valid = min (s.valid + ws.length) s.size := by
  induction ws generalizing s with
  | nil =>
      have := hInv.2.2.1
      have := hInv.2.2.2.1
      simp [addAll]
      omega
  | cons wt rest ih =>
      have hw := hrange wt (by simp)
      rw [addAll_cons]
      rw [ih _ (ledgerInv_add s wt.1 wt.2 true hInv)
        (fun x hx => hrange x (by simp [hx]))]
      rw [AddMeasurement_size]
      have hval := (AddMeasurement_true_spec s wt.1 wt.2 hInv hw.1 hw.2).2.1
      rw [hval]
      have := hInv.2.2.2.1
      simp only [List.length_cons]
      omega

theorem addAllFlagged_cons (s : Scale) (wt : ℚ × Int × Bool)
    (ws : List (ℚ × Int × Bool)) :
    addAllFlagged s (wt :: ws) =
      addAllFlagged (AddMeasurement s wt.1 wt.2.1 wt.2.2).1 ws := rfl

theorem addAllFlagged_append_single (s : Scale) (ws : List (ℚ × Int × Bool))
    (x : ℚ × Int × Bool) :
    addAllFlagged s (ws ++ [x]) =
      (AddMeasurement (addAllFlagged s ws) x.1 x.2.1 x.2.2).1 := by
  simp [addAllFlagged, List.foldl_append]

theorem ledgerInv_addAllFlagged (s : Scale) (ws : List (ℚ × Int × Bool))
    (h : LedgerInv s) : LedgerInv (addAllFlagged s ws) := by
  induction ws generalizing s with
  | nil => exact h
  | cons wt rest ih =>
      rw [addAllFlagged_cons]
      exact ih _ (ledgerInv_add s wt.1 wt.2.1 wt.2.2 h)

/-- When every persistence call succeeds, the flagged fold is the plain
healthy-store fold. -/
theorem addAllFlagged_allTrue (s : Scale) (ws : List (ℚ × Int × Bool))
    (h : ∀ wt ∈ ws, wt.2.2 = true) :
    addAllFlagged s ws = addAll s (ws.map fun wt => (wt.1, wt.2.1)) := by
  induction ws generalizing s with
  | nil => rfl
  | cons wt rest ih =>
      have hwt := h wt (by simp)
      rw [addAllFlagged_cons, hwt, List.map_cons, addAll_cons]
      exact ih _ (fun y hy => h y (by simp [hy]))

/-- Reading at relative offset 0 right after an accepted append returns
the appended measurement whether or not the persistence call succeeded:
the offset-0 guard can never fire (`valid ≥ 0`), and the slot under the
advanced cursor holds the just-written record. -/
theorem AddMeasurement_read_zero (s : Scale) (w : ℚ) (t : Int) (b : Bool)
    (hInv : LedgerInv s) (hw1 : 6000 ≤ w) (hw2 : w ≤ 65000) :
    GetMeasurement (AddMeasurement s w t b).1 0 =
      { Index := (AddMeasurement s w t b).1.index, Weight := w, At := t } := by
  cases b with
  | true => exact (AddMeasurement_true_spec s w t hInv hw1 hw2).2.2
  | false =>
      obtain ⟨h1, h2, h3, h4, h5, h6⟩ := hInv
      have hw : ¬ (w < 6000 ∨ w > 65000) := by
        push_neg
        exact ⟨hw1, hw2⟩
      by_cases hwrap : s.index + 1 ≥ (s.Measurements.length : Int)
      · simp [AddMeasurement, hw, hwrap, GetMeasurement, GetValidCount]
        rw [if_neg (by omega), List.getElem?_set_self (by omega), Option.getD_some]
      · have ht : (s.index + 1 + s.size).tmod s.size = s.index + 1 :=
          tmod_add_self_of_lt (by omega) (by omega)
        simp [AddMeasurement, hw, hwrap, GetMeasurement, GetValidCount]
        rw [if_neg (by omega), ht, List.getElem?_set_self (by omega), Option.getD_some]

/-- **C2 is false as stated.** A single accepted (in-range) append into a
fresh capacity-1 ledger whose persistence call fails is a sequence of
`N + k` accepted appends with `N = 1`, `k = 0`; afterwards
`valid_count = 0 ≠ min (N + k) N = 1`, because the early return on the
store error skips the `valid` increment. -/
theorem C2_counterexample :
    GetValidCount (addAllFlagged (NewScale 1 0 none none) [(7000, 1, false)]) ≠
        min (1 + 0 : Int) 1 ∧
      GetValidCount (addAllFlagged (NewScale 1 0 none none) [(7000, 1, false)]) =
        0 := by
  decide

/-- **C2 (amended).** For every sequence of `N + k` accepted appends into
a freshly constructed ledger of capacity `N`, each append's persistence
call succeeding or failing individually: reading at relative offset `0`
always returns exactly the most recently appended `Measurement` (cursor
index, appended weight, appended timestamp); and `valid_count = min (N + k) N`
provided every persistence call succeeded (a failed call skips the
`valid_count` increment). -/
theorem C2_amended_freshest_read_and_valid_count (N t0 : Int) (kk : Nat)
    (ws : List (ℚ × Int × Bool)) (x : ℚ × Int × Bool) (hN : 1 ≤ N)
    (hlen : (ws.length : Int) + 1 = N + kk)
    (hrange : ∀ wt ∈ ws ++ [x], 6000 ≤ wt.1 ∧ wt.1 ≤ 65000) :
    GetMeasurement (addAllFlagged (NewScale N t0 none none) (ws ++ [x])) 0 =
        { Index := (addAllFlagged (NewScale N t0 none none) (ws ++ [x])).index
          Weight := x.1
          At := x.2.1 } ∧
      ((∀ wt ∈ ws ++ [x], wt.2.2 = true) →
        GetValidCount (addAllFlagged (NewScale N t0 none none) (ws ++ [x])) =
          min (N + kk) N) := by
  have hInv0 := ledgerInv_NewScale N t0 none none hN
  constructor
  · rw [addAllFlagged_append_single]
    have hx := hrange x (by simp)
    exact AddMeasurement_read_zero _ x.1 x.2.1 x.2.2
      (ledgerInv_addAllFlagged _ ws hInv0) hx.1 hx.2
  · intro hall
    rw [addAllFlagged_allTrue _ _ hall]
    have hrangeMap : ∀ wt ∈ (ws ++ [x]).map fun wt => (wt.1, wt.2.1),
        6000 ≤ wt.1 ∧ wt.1 ≤ 65000 := by
      intro wt hwt
      simp only [List.mem_map] at hwt
      obtain ⟨y, hy, rfl⟩ := hwt
      exact hrange y hy
    have hv := addAll_valid _ _ hInv0 hrangeMap
    have hv0 : (NewScale N t0 none none).valid = 0 := rfl
    have hs0 : (NewScale N t0 none none).size = N := rfl
    rw [GetValidCount, hv, hv0, hs0]
    simp only [List.length_map, List.length_append, List.length_cons,
      List.length_nil]
    omega

/-- Witness for the amended C2: three in-range appends with healthy
persistence into a capacity-2 ledger. -/
theorem C2_amended_witness :
    ((1 : Int) ≤ 2 ∧
        ((([((7000 : ℚ), (1 : Int), true), (7100, 2, true)] :
            List (ℚ × Int × Bool)).length : Int) + 1 = 2 + ((1 : Nat) : Int)) ∧
        (∀ wt ∈ ([((7000 : ℚ), (1 : Int), true), (7100, 2, true)] :
            List (ℚ × Int × Bool)) ++ [(7200, 3, true)],
          6000 ≤ wt.1 ∧ wt.1 ≤ 65000)) ∧
      GetMeasurement (addAllFlagged (NewScale 2 0 none none)
          (([((7000 : ℚ), (1 : Int), true), (7100, 2, true)] :
            List (ℚ × Int × Bool)) ++ [(7200, 3, true)])) 0 =
        { Index := (addAllFlagged (NewScale 2 0 none none)
            (([((7000 : ℚ), (1 : Int), true), (7100, 2, true)] :
              List (ℚ × Int × Bool)) ++ [(7200, 3, true)])).index
          Weight := 7200
          At := 3 } ∧
      GetValidCount (addAllFlagged (NewScale 2 0 none none)
          (([((7000 : ℚ), (1 : Int), true), (7100, 2, true)] :
            List (ℚ × Int × Bool)) ++ [(7200, 3, true)])) =
        min (2 + ((1 : Nat) : Int)) 2 := by
  refine ⟨⟨by decide, by decide, by decide⟩, ?_, ?_⟩
  · exact (C2_amended_freshest_read_and_valid_count 2 0 1
      [(7000, 1, true), (7100, 2, true)] (7200, 3, true)
      (by decide) (by decide) (by decide)).1
  · exact (C2_amended_freshest_read_and_valid_count 2 0 1
      [(7000, 1, true), (7100, 2, true)] (7200, 3, true)
      (by decide) (by decide) (by decide)).2 (by decide)

/-- **C1 is false as stated.** In the freshly constructed empty ledger of
capacity 1 we have `valid_count = 0`, so a read at offset `0 ≥ valid_count`
would have to produce the index `-1` sentinel; but the guard in the source
uses strict comparisons, the guard passes, and the read returns the
zero-valued slot, whose index is `0`, not `-1`. -/
theorem C1_counterexample :
    GetValidCount (NewScale 1 0 none none) = 0 ∧
      GetMeasurement (NewScale 1 0 none none) 0 ≠ sentinelMeasurement ∧
      (GetMeasurement (NewScale 1 0 none none) 0).Index = 0 := by
  decide

/-- **C1 (amended).** `GetMeasurement` returns the sentinel whenever
`offset > valid_count` or `offset > N` (strictly greater); an offset
exactly equal to `valid_count` (and at most `N`) is not rejected: the
guard passes and the slot at the computed ring position is returned. -/
theorem C1_amended_sentinel_guard (s : Scale) (k : Int) :
    (k > GetValidCount s ∨ k > s.size →
        GetMeasurement s k = sentinelMeasurement) ∧
      (k ≤ GetValidCount s → k ≤ s.size →
        GetMeasurement s k =
          s.Measurements.getD ((s.index - k + s.size).tmod s.size).toNat
            zeroMeasurement) := by
  constructor
  · intro h
    unfold GetMeasurement
    rw [if_pos h]
  · intro h1 h2
    unfold GetMeasurement
    rw [if_neg (by omega)]

/-- Witness for the amended C1, on a capacity-2 ledger holding one
measurement: offset 3 is rejected with the sentinel, while offset
`1 = valid_count` passes the guard and returns slot contents. -/
theorem C1_amended_witness :
    ((3 : Int) > GetValidCount (addAll (NewScale 2 0 none none) [(7000, 1)]) ∨
        (3 : Int) > (addAll (NewScale 2 0 none none) [(7000, 1)]).size) ∧
      GetMeasurement (addAll (NewScale 2 0 none none) [(7000, 1)]) 3 =
        sentinelMeasurement ∧
      (1 : Int) ≤ GetValidCount (addAll (NewScale 2 0 none none) [(7000, 1)]) ∧
      GetMeasurement (addAll (NewScale 2 0 none none) [(7000, 1)]) 1 =
        (addAll (NewScale 2 0 none none) [(7000, 1)]).Measurements.getD
          (((addAll (NewScale 2 0 none none) [(7000, 1)]).index - 1 +
                (addAll (NewScale 2 0 none none) [(7000, 1)]).size).tmod
              (addAll (NewScale 2 0 none none) [(7000, 1)]).size).toNat
          zeroMeasurement :=
  ⟨by decide,
    (C1_amended_sentinel_guard (addAll (NewScale 2 0 none none) [(7000, 1)]) 3).1
      (by decide),
    by decide,
    (C1_amended_sentinel_guard (addAll (NewScale 2 0 none none) [(7000, 1)]) 1).2
      (by decide) (by decide)⟩

/-- **C3 is false as stated.** On a capacity-1 empty ledger, an in-range
append whose persistence call fails leaves `valid = 0`, while the same
append with a healthy store yields `valid = 1`: the two resulting ledger
states are not equal, because the early return on the store error skips
the `valid` increment. -/
theorem C3_counterexample :
    (AddMeasurement (NewScale 1 0 none none) 7000 1 false).1 ≠
        (AddMeasurement (NewScale 1 0 none none) 7000 1 true).1 ∧
      (AddMeasurement (NewScale 1 0 none none) 7000 1 false).1.valid = 0 ∧
      (AddMeasurement (NewScale 1 0 none none) 7000 1 true).1.valid = 1 := by
  decide

/-- **C3 (amended).** When an in-range append hits a persistence failure,
the cursor advance and the slot write are retained exactly as on success
and the failure is surfaced to the caller, but the early return skips the
`valid_count` increment: the failed-persistence state agrees with the
success state on cursor and slots and differs precisely in `valid`, which
stays at its old value instead of being bumped (saturating) as on
success. -/
theorem C3_amended_no_rollback_except_valid (s : Scale) (w : ℚ) (t : Int)
    (hw1 : 6000 ≤ w) (hw2 : w ≤ 65000) :
    (AddMeasurement s w t false).1.index = (AddMeasurement s w t true).1.index ∧
      (AddMeasurement s w t false).1.Measurements =
        (AddMeasurement s w t true).1.Measurements ∧
      (AddMeasurement s w t false).1.valid = s.valid ∧
      (AddMeasurement s w t true).1.valid =
        (if s.valid < s.size then s.valid + 1 else s.valid) ∧
      (AddMeasurement s w t false).2 = some () ∧
      (AddMeasurement s w t true).2 = none := by
  have hw : ¬ (w < 6000 ∨ w > 65000) := by
    push_neg
    exact ⟨hw1, hw2⟩
  by_cases hv : s.valid < s.size <;> simp [AddMeasurement, hw, hv]

/-- Witness for the amended C3 on a concrete capacity-2 ledger. -/
theorem C3_amended_witness :
    ((6000 : ℚ) ≤ 7000 ∧ (7000 : ℚ) ≤ 65000) ∧
      (AddMeasurement (NewScale 2 0 none none) 7000 1 false).1.index =
          (AddMeasurement (NewScale 2 0 none none) 7000 1 true).1.index ∧
      (AddMeasurement (NewScale 2 0 none none) 7000 1 false).1.Measurements =
          (AddMeasurement (NewScale 2 0 none none) 7000 1 true).1.Measurements ∧
      (AddMeasurement (NewScale 2 0 none none) 7000 1 false).1.valid =
          (NewScale 2 0 none none).valid ∧
      (AddMeasurement (NewScale 2 0 none none) 7000 1 true).1.valid =
          (if (NewScale 2 0 none none).valid < (NewScale 2 0 none none).size
            then (NewScale 2 0 none none).valid + 1
            else (NewScale 2 0 none none).valid) ∧
      (AddMeasurement (NewScale 2 0 none none) 7000 1 false).2 = some () ∧
      (AddMeasurement (NewScale 2 0 none none) 7000 1 true).2 = none :=
  ⟨⟨by decide, by decide⟩,
    C3_amended_no_rollback_except_valid (NewScale 2 0 none none) 7000 1
      (by decide) (by decide)⟩

/-- **C8.** An implausible weight (below 6000 or above 65000) makes
`AddMeasurement` a complete no-op on the state — cursor, slots and
`valid_count` untouched — returning the `nil` error. -/
theorem C8_implausible_weight_noop (s : Scale) (w : ℚ) (t : Int)
    (storeOk : Bool) (h : w < 6000 ∨ w > 65000) :
    AddMeasurement s w t storeOk = (s, none) := by
  simp [AddMeasurement, h]

/-- Witness for C8 at the claim's two particular weights, 100 and 90000. -/
theorem C8_witness :
    (((100 : ℚ) < 6000 ∨ (100 : ℚ) > 65000) ∧
        AddMeasurement (NewScale 2 0 none none) 100 5 true =
          (NewScale 2 0 none none, none)) ∧
      (((90000 : ℚ) < 6000 ∨ (90000 : ℚ) > 65000) ∧
        AddMeasurement (NewScale 2 0 none none) 90000 5 false =
          (NewScale 2 0 none none, none)) :=
  ⟨⟨by decide, C8_implausible_weight_noop (NewScale 2 0 none none) 100 5 true
      (by decide)⟩,
    ⟨by decide, C8_implausible_weight_noop (NewScale 2 0 none none) 90000 5 false
      (by decide)⟩⟩

/-- `Recheck` on a closed pub never mutates anything, stale or not. -/
theorem Recheck_noop_closed (s : Scale) (now : Int)
    (h2 : s.Pub.IsOpen = false) : Recheck s now = s := by
  unfold Recheck
  by_cases hok : IsOk s now
  · rw [if_pos hok]
  · rw [if_neg hok, h2]
    simp

/-- **C5.** If the pub is open and the last contact is at least `OkLimit`
old, a single `Recheck` closes the pub and backdates `ClosedAt` to the
evaluation instant minus `OkLimit`; a further `Recheck` at any instant at
which the scale is still stale changes nothing at all — the transition is
applied exactly once. -/
theorem C5_recheck_closes_once_idempotent (s : Scale) (now now2 : Int)
    (hopen : s.Pub.IsOpen = true) (hstale : OkLimit ≤ now - s.LastOk)
    (hstale2 : OkLimit ≤ now2 - (Recheck s now).LastOk) :
    (Recheck s now).Pub.IsOpen = false ∧
      (Recheck s now).Pub.ClosedAt = now - OkLimit ∧
      Recheck (Recheck s now) now2 = Recheck s now := by
  have hok : IsOk s now = false := by
    unfold IsOk
    simp only [decide_eq_false_iff_not, not_lt]
    omega
  have h1 : Recheck s now =
      { s with Pub := { s.Pub with IsOpen := false, ClosedAt := now - OkLimit } } := by
    unfold Recheck
    rw [hok, if_neg (by simp), if_pos hopen]
  have hok2 : IsOk (Recheck s now) now2 = false := by
    unfold IsOk
    rw [h1]
    simp only [decide_eq_false_iff_not, not_lt]
    rw [h1] at hstale2
    simpa using hstale2
  have hclosed : (Recheck s now).Pub.IsOpen = false := by rw [h1]
  exact ⟨hclosed, by rw [h1], Recheck_noop_closed _ now2 hclosed⟩

/-- Witness for C5: a pub opened by a ping at instant 5, rechecked once the
staleness threshold has elapsed, and rechecked again a bit later. -/
theorem C5_witness :
    ((Ping (NewScale 1 0 none none) 5).Pub.IsOpen = true ∧
        OkLimit ≤ (OkLimit + 5) - (Ping (NewScale 1 0 none none) 5).LastOk ∧
        OkLimit ≤ (OkLimit + 6) -
          (Recheck (Ping (NewScale 1 0 none none) 5) (OkLimit + 5)).LastOk) ∧
      (Recheck (Ping (NewScale 1 0 none none) 5) (OkLimit + 5)).Pub.IsOpen = false ∧
      (Recheck (Ping (NewScale 1 0 none none) 5) (OkLimit + 5)).Pub.ClosedAt =
        (OkLimit + 5) - OkLimit ∧
      Recheck (Recheck (Ping (NewScale 1 0 none none) 5) (OkLimit + 5))
          (OkLimit + 6) =
        Recheck (Ping (NewScale 1 0 none none) 5) (OkLimit + 5) :=
  ⟨⟨by decide, by decide, by decide⟩,
    C5_recheck_closes_once_idempotent (Ping (NewScale 1 0 none none) 5)
      (OkLimit + 5) (OkLimit + 6) (by decide) (by decide) (by decide)⟩

/-! ## Lock discipline around the persistence adapter (C9) -/

/-- Events of one core operation, in program order. -/
inductive ScaleEvent where
  | lockAcquire
  | lockRelease
  | storeCall
  | ledgerWrite
deriving DecidableEq

/-- Program-order event trace of the accepted-append path of
`AddMeasurement` (scale.go lines 105-129): `s.mux.Lock()` at line 105, the
slot write at line 119, `s.store.AddMeasurement(m)` at line 120, and the
deferred `s.mux.Unlock()` from line 106, which runs only when the function
returns — after the store call on both the success and the failure path. -/
def addMeasurementTrace : List ScaleEvent :=
  [ScaleEvent.lockAcquire, ScaleEvent.ledgerWrite, ScaleEvent.storeCall,
    ScaleEvent.lockRelease]

/-- Program-order event trace of `SetActiveKeg` (scale.go lines 262-268):
`s.mux.Lock()`, then `return s.store.SetActiveKeg(keg)` evaluates the
store call before the deferred unlock runs. -/
def setActiveKegTrace : List ScaleEvent :=
  [ScaleEvent.lockAcquire, ScaleEvent.storeCall, ScaleEvent.lockRelease]

/-- Lock depth at the first store call of a trace: `none` when the trace
has no store call, otherwise the number of unmatched lock acquisitions at
the moment the store is invoked. -/
def lockDepthAtStore : List ScaleEvent → Int → Option Int
  | [], _ => none
  | ScaleEvent.storeCall :: _, d => some d
  | ScaleEvent.lockAcquire :: rest, d => lockDepthAtStore rest (d + 1)
  | ScaleEvent.lockRelease :: rest, d => lockDepthAtStore rest (d - 1)
  | ScaleEvent.ledgerWrite :: rest, d => lockDepthAtStore rest d

/-- A trace has released the mutex before invoking the store exactly when
the lock depth at its store call is zero. -/
def releasedBeforeStore (t : List ScaleEvent) : Bool :=
  lockDepthAtStore t 0 == some 0

/-- **C9 is false as stated.** Neither the append path nor the active-keg
update releases the mutex before calling the Persistence Adapter: both
traces invoke the store at lock depth 1 (the deferred unlock runs only at
function return, after the store call). -/
theorem C9_counterexample :
    releasedBeforeStore addMeasurementTrace = false ∧
      releasedBeforeStore setActiveKegTrace = false := by
  decide

/-- **C9 (amended).** Both the append path and the active-keg update hold
the mutual-exclusion lock across their call to the Persistence Adapter:
in each trace the store call happens at lock depth 1, between the
acquisition and the deferred release. -/
theorem C9_amended_lock_held_across_store :
    lockDepthAtStore addMeasurementTrace 0 = some 1 ∧
      lockDepthAtStore setActiveKegTrace 0 = some 1 := by
  decide

/-- **C4 fails on the code (code bug).** Pre-seed a capacity-3 ledger with
two stored measurements, m1 = (index 0, weight 6500, at 10) older and
m2 = (index 1, weight 6600, at 20) newer.  The load loop
`i := 0; for _, m := range measurements { s.Measurements[i] = m }` never
increments `i`, so both loaded measurements land in slot 0 (m2 overwrites
m1) and `valid` is never set.  Consequently `read_relative(0)` reads the
untouched empty slot 1 rather than m2, and `read_relative(1)` is rejected
by the guard (1 > valid = 0) with the sentinel instead of returning m1. -/
theorem C4_code_bug_load_overwrites_slot_zero :
    (NewScale 3 0 (some [⟨0, 6500, 10⟩, ⟨1, 6600, 20⟩]) none).valid = 0 ∧
      (NewScale 3 0 (some [⟨0, 6500, 10⟩, ⟨1, 6600, 20⟩]) none).index = 1 ∧
      (NewScale 3 0 (some [⟨0, 6500, 10⟩, ⟨1, 6600, 20⟩]) none).Measurements =
        [⟨1, 6600, 20⟩, zeroMeasurement, zeroMeasurement] ∧
      GetMeasurement (NewScale 3 0 (some [⟨0, 6500, 10⟩, ⟨1, 6600, 20⟩]) none) 0 ≠
        (⟨1, 6600, 20⟩ : Measurement) ∧
      GetMeasurement (NewScale 3 0 (some [⟨0, 6500, 10⟩, ⟨1, 6600, 20⟩]) none) 1 =
        sentinelMeasurement := by
  decide

/-! ## Slot contents while the ring has not wrapped (towards C6) -/

theorem getD_set_self (l : List Measurement) (i : Nat) (v d : Measurement)
    (h : i < l.length) : (l.set i v).getD i d = v := by
  simp [List.getD_eq_getElem?_getD, List.getElem?_set_self h]

theorem getD_set_other (l : List Measurement) (i j : Nat) (v d : Measurement)
    (h : i ≠ j) : (l.set i v).getD j d = l.getD j d := by
  simp [List.getD_eq_getElem?_getD, List.getElem?_set_ne h]

theorem AddMeasurement_true_noWrap (s : Scale) (w : ℚ) (t : Int)
    (hw1 : 6000 ≤ w) (hw2 : w ≤ 65000)
    (hnw : ¬ s.index + 1 ≥ (s.Measurements.length : Int)) :
    (AddMeasurement s w t true).1.index = s.index + 1 ∧
      (AddMeasurement s w t true).1.Measurements =
        s.Measurements.set (s.index + 1).toNat
          { Index := s.index + 1, Weight := w, At := t } ∧
      (AddMeasurement s w t true).1.valid =
        (if s.valid < s.size then s.valid + 1 else s.valid) := by
  have hw : ¬ (w < 6000 ∨ w > 65000) := by
    push_neg
    exact ⟨hw1, hw2⟩
  by_cases hv : s.valid < s.size <;> simp [AddMeasurement, hw, hnw, hv]

theorem AddMeasurement_true_wrap (s : Scale) (w : ℚ) (t : Int)
    (hw1 : 6000 ≤ w) (hw2 : w ≤ 65000)
    (hwr : s.index + 1 ≥ (s.Measurements.length : Int)) :
    (AddMeasurement s w t true).1.index = 0 ∧
      (AddMeasurement s w t true).1.Measurements =
        s.Measurements.set 0 { Index := 0, Weight := w, At := t } ∧
      (AddMeasurement s w t true).1.valid =
        (if s.valid < s.size then s.valid + 1 else s.valid) := by
  have hw : ¬ (w < 6000 ∨ w > 65000) := by
    push_neg
    exact ⟨hw1, hw2⟩
  by_cases hv : s.valid < s.size <;> simp [AddMeasurement, hw, hwr, hv]

/-- While at most `N` appends have happened, nothing has wrapped: the
cursor sits at `n - 1`, `valid = n`, and slot `j` holds exactly the
`(j+1)`-th appended measurement, recorded with slot index `j`. -/
theorem addAll_noWrap (N t0 : Int) (hN : 1 ≤ N) (ws : List (ℚ × Int))
    (hlen : (ws.length : Int) ≤ N)
    (hrange : ∀ wt ∈ ws, 6000 ≤ wt.1 ∧ wt.1 ≤ 65000) :
    (addAll (NewScale N t0 none none) ws).index = (ws.length : Int) - 1 ∧
      (addAll (NewScale N t0 none none) ws).valid = (ws.length : Int) ∧
      ∀ j : Nat, j < ws.length →
        (addAll (NewScale N t0 none none) ws).Measurements.getD j zeroMeasurement =
          { Index := (j : Int), Weight := (ws.getD j (0, 0)).1
            At := (ws.getD j (0, 0)).2 } := by
  induction ws using List.reverseRecOn with
  | nil =>
      refine ⟨rfl, rfl, ?_⟩
      intro j hj
      simp at hj
  | append_singleton ws x ih =>
      have hlen' : (ws.length : Int) ≤ N := by
        simp at hlen
        omega
      have hrange' : ∀ wt ∈ ws, 6000 ≤ wt.1 ∧ wt.1 ≤ 65000 := by
        intro wt hwt
        exact hrange wt (by simp [hwt])
      obtain ⟨ihIdx, ihVal, ihSlots⟩ := ih hlen' hrange'
      have hInv := ledgerInv_addAll _ ws (ledgerInv_NewScale N t0 none none hN)
      have hsize : (addAll (NewScale N t0 none none) ws).size = N := by
        rw [addAll_size]
        rfl
      have hmlen :
          ((addAll (NewScale N t0 none none) ws).Measurements.length : Int) = N := by
        rw [hInv.1, hsize]
      have hx := hrange x (by simp)
      have hlt : (ws.length : Int) < N := by
        simp at hlen
        omega
      have hnw : ¬ (addAll (NewScale N t0 none none) ws).index + 1 ≥
          ((addAll (NewScale N t0 none none) ws).Measurements.length : Int) := by
        rw [ihIdx, hmlen]
        omega
      rw [addAll_append_single]
      obtain ⟨hIdx2, hMes2, hVal2⟩ :=
        AddMeasurement_true_noWrap _ x.1 x.2 hx.1 hx.2 hnw
      refine ⟨?_, ?_, ?_⟩
      · rw [hIdx2, ihIdx]
        simp only [List.length_append, List.length_cons, List.length_nil]
        push_cast
        ring
      · rw [hVal2, ihVal, hsize]
        simp only [List.length_append, List.length_cons, List.length_nil]
        rw [if_pos (by omega)]
        push_cast
        ring
      · intro j hj
        rw [hMes2, ihIdx]
        have htoNat : ((ws.length : Int) - 1 + 1).toNat = ws.length := by
          omega
        rw [htoNat]
        simp only [List.length_append, List.length_cons, List.length_nil] at hj
        by_cases hjlt : j < ws.length
        · rw [getD_set_other _ _ _ _ _ (by omega), ihSlots j hjlt,
            List.getD_append _ _ _ _ hjlt]
        · have hjeq : j = ws.length := by omega
          subst hjeq
          rw [getD_set_self _ _ _ _ (by omega)]
          rw [List.getD_append_right _ _ _ _ (le_refl _)]
          simp [ihIdx]

/-- **C6 is false as stated.** Two accepted (in-range) appends with
strictly increasing capture times into a fresh capacity-2 ledger, both
persistence calls failing, are exactly `N` accepted appends with `N = 2`;
afterwards `valid_count` is still `0` (the store-error early return skips
the increment), so `read_relative(N-1)` hits the guard and returns the
index `-1` sentinel — not the very first appended measurement. -/
theorem C6_counterexample :
    GetMeasurement (addAllFlagged (NewScale 2 0 none none)
        [(7000, 1, false), (7100, 2, false)]) (2 - 1) = sentinelMeasurement ∧
      GetMeasurement (addAllFlagged (NewScale 2 0 none none)
          [(7000, 1, false), (7100, 2, false)]) (2 - 1) ≠
        ({ Index := 0, Weight := 7000, At := 1 } : Measurement) := by
  decide

/-- **C6 (amended).** For a ledger of capacity `N ≥ 1`, fed accepted
appends with strictly increasing capture times whose persistence calls
all succeed: after exactly `N` appends, `read_relative(N-1)` returns the
very first appended measurement; after one further append the ring has
wrapped and `read_relative(N-1)` no longer returns it. -/
theorem C6_ring_wrap (N t0 : Int) (hN : 1 ≤ N) (ws : List (ℚ × Int))
    (x : ℚ × Int) (hlen : (ws.length : Int) = N)
    (hrange : ∀ wt ∈ ws ++ [x], 6000 ≤ wt.1 ∧ wt.1 ≤ 65000)
    (htimes : List.Chain' (fun a b : ℚ × Int => a.2 < b.2) (ws ++ [x])) :
    GetMeasurement (addAll (NewScale N t0 none none) ws) (N - 1) =
        { Index := 0, Weight := (ws.getD 0 (0, 0)).1
          At := (ws.getD 0 (0, 0)).2 } ∧
      GetMeasurement (addAll (NewScale N t0 none none) (ws ++ [x])) (N - 1) ≠
        { Index := 0, Weight := (ws.getD 0 (0, 0)).1
          At := (ws.getD 0 (0, 0)).2 } := by
  have hrangeWs : ∀ wt ∈ ws, 6000 ≤ wt.1 ∧ wt.1 ≤ 65000 := by
    intro wt hwt
    exact hrange wt (by simp [hwt])
  obtain ⟨hIdx1, hVal1, hSlots1⟩ :=
    addAll_noWrap N t0 hN ws (le_of_eq hlen) hrangeWs
  have hInv1 := ledgerInv_addAll _ ws (ledgerInv_NewScale N t0 none none hN)
  have hsize1 : (addAll (NewScale N t0 none none) ws).size = N := by
    rw [addAll_size]
    rfl
  have hmlen1 :
      ((addAll (NewScale N t0 none none) ws).Measurements.length : Int) = N := by
    rw [hInv1.1, hsize1]
  have hwspos : 0 < ws.length := by omega
  have hx := hrange x (by simp)
  constructor
  · unfold GetMeasurement GetValidCount
    rw [if_neg (by rw [hVal1, hsize1]; omega)]
    rw [hIdx1, hsize1, hlen]
    rw [show N - 1 - (N - 1) + N = 0 + N by ring,
      tmod_add_self_of_lt (le_refl 0) (by omega)]
    show (addAll (NewScale N t0 none none) ws).Measurements.getD
        ((0 : Int)).toNat zeroMeasurement = _
    rw [show ((0 : Int)).toNat = 0 from rfl, hSlots1 0 hwspos]
    simp
  · rw [addAll_append_single]
    have hwrap : (addAll (NewScale N t0 none none) ws).index + 1 ≥
        ((addAll (NewScale N t0 none none) ws).Measurements.length : Int) := by
      rw [hIdx1, hmlen1]
      omega
    obtain ⟨hIdx2, hMes2, hVal2⟩ :=
      AddMeasurement_true_wrap _ x.1 x.2 hx.1 hx.2 hwrap
    have hsize2 :
        (AddMeasurement (addAll (NewScale N t0 none none) ws) x.1 x.2 true).1.size
          = N := by
      rw [AddMeasurement_size, hsize1]
    have hval2 :
        (AddMeasurement (addAll (NewScale N t0 none none) ws) x.1 x.2 true).1.valid
          = N := by
      rw [hVal2, hVal1, hsize1, hlen]
      simp
    unfold GetMeasurement GetValidCount
    rw [if_neg (by rw [hval2, hsize2]; omega)]
    rw [hIdx2, hsize2]
    rw [show (0 : Int) - (N - 1) + N = 1 by ring]
    by_cases hN1 : N = 1
    · subst hN1
      rw [show ((1 : Int).tmod 1) = 0 by decide]
      show (AddMeasurement (addAll (NewScale 1 t0 none none) ws) x.1 x.2
          true).1.Measurements.getD ((0 : Int)).toNat zeroMeasurement ≠ _
      rw [show ((0 : Int)).toNat = 0 from rfl, hMes2]
      rw [getD_set_self _ _ _ _ (by omega)]
      have hws1 : ws.length = 1 := by omega
      intro hEq
      have hAt := congrArg Measurement.At hEq
      simp only [] at hAt
      cases ws with
      | nil => simp at hws1
      | cons y tail =>
          cases tail with
          | cons z tail2 => simp at hws1
          | nil =>
              have hyx : y.2 < x.2 := (List.chain'_cons.mp htimes).1
              simp [List.getD] at hAt
              omega
    · have h1N : (1 : Int).tmod N = 1 := by
        rw [Int.tmod_eq_emod (by omega) (by omega)]
        exact Int.emod_eq_of_lt (by omega) (by omega)
      rw [h1N]
      show (AddMeasurement (addAll (NewScale N t0 none none) ws) x.1 x.2
          true).1.Measurements.getD ((1 : Int)).toNat zeroMeasurement ≠ _
      rw [show ((1 : Int)).toNat = 1 from rfl, hMes2]
      rw [getD_set_other _ _ _ _ _ (by omega)]
      rw [hSlots1 1 (by omega)]
      intro hEq
      have hIdx := congrArg Measurement.Index hEq
      simp at hIdx

/-- Witness for C6: capacity 2, appends (7000 at 1), (7100 at 2), then
(7200 at 3). -/
theorem C6_witness :
    ((1 : Int) ≤ 2 ∧
        (([((7000 : ℚ), (1 : Int)), (7100, 2)] : List (ℚ × Int)).length : Int) = 2 ∧
        (∀ wt ∈ ([((7000 : ℚ), (1 : Int)), (7100, 2)] : List (ℚ × Int)) ++
            [(7200, 3)], 6000 ≤ wt.1 ∧ wt.1 ≤ 65000) ∧
        List.Chain' (fun a b : ℚ × Int => a.2 < b.2)
          (([((7000 : ℚ), (1 : Int)), (7100, 2)] : List (ℚ × Int)) ++
            [(7200, 3)])) ∧
      GetMeasurement (addAll (NewScale 2 0 none none)
          [((7000 : ℚ), (1 : Int)), (7100, 2)]) (2 - 1) =
        { Index := 0
          Weight := (([((7000 : ℚ), (1 : Int)), (7100, 2)] :
            List (ℚ × Int)).getD 0 (0, 0)).1
          At := (([((7000 : ℚ), (1 : Int)), (7100, 2)] :
            List (ℚ × Int)).getD 0 (0, 0)).2 } ∧
      GetMeasurement (addAll (NewScale 2 0 none none)
          (([((7000 : ℚ), (1 : Int)), (7100, 2)] : List (ℚ × Int)) ++
            [(7200, 3)])) (2 - 1) ≠
        { Index := 0
          Weight := (([((7000 : ℚ), (1 : Int)), (7100, 2)] :
            List (ℚ × Int)).getD 0 (0, 0)).1
          At := (([((7000 : ℚ), (1 : Int)), (7100, 2)] :
            List (ℚ × Int)).getD 0 (0, 0)).2 } := by
  have hchain : List.Chain' (fun a b : ℚ × Int => a.2 < b.2)
      (([((7000 : ℚ), (1 : Int)), (7100, 2)] : List (ℚ × Int)) ++ [(7200, 3)]) := by
    simp only [List.cons_append, List.nil_append, List.chain'_cons,
      List.chain'_singleton, and_true]
    norm_num
  refine ⟨⟨by decide, by decide, by decide, hchain⟩, ?_, ?_⟩
  · exact (C6_ring_wrap 2 0 (by decide) [(7000, 1), (7100, 2)] (7200, 3)
      (by decide) (by decide) hchain).1
  · exact (C6_ring_wrap 2 0 (by decide) [(7000, 1), (7100, 2)] (7200, 3)
      (by decide) (by decide) hchain).2

/-! ## The pub state machine invariant (towards C7) -/

theorem Ping_open_eq (s : Scale) (n : Int) (h : s.Pub.IsOpen = true) :
    Ping s n = { s with LastOk := n } := by
  simp [Ping, h]

theorem Ping_closed_eq (s : Scale) (n : Int) (h : s.Pub.IsOpen = false) :
    Ping s n =
      { s with Pub := { s.Pub with IsOpen := true, OpenedAt := n }
               LastOk := n } := by
  simp [Ping, h]

theorem AddMeasurement_frame (s : Scale) (w : ℚ) (t : Int) (b : Bool) :
    (AddMeasurement s w t b).1.Pub = s.Pub ∧
      (AddMeasurement s w t b).1.LastOk = s.LastOk := by
  unfold AddMeasurement
  split
  · exact ⟨rfl, rfl⟩
  · cases b
    · exact ⟨rfl, rfl⟩
    · simp only [if_true]
      split <;> exact ⟨rfl, rfl⟩

/-- Time-indexed invariant of the pub state machine: every stamp lies in
the past of `t` (`ClosedAt` strictly); when open, the pub opened strictly
after it last closed and not after the last contact; when closed, it
closed no earlier than it opened. -/
def PubInv (s : Scale) (t : Int) : Prop :=
  s.LastOk ≤ t ∧ s.Pub.OpenedAt ≤ t ∧ s.Pub.ClosedAt < t ∧
    (s.Pub.IsOpen = true →
      s.Pub.ClosedAt < s.Pub.OpenedAt ∧ s.Pub.OpenedAt ≤ s.LastOk) ∧
    (s.Pub.IsOpen = false → s.Pub.OpenedAt ≤ s.Pub.ClosedAt)

theorem pubInv_ping (s : Scale) (t n : Int) (h : PubInv s t) (htn : t ≤ n) :
    PubInv (Ping s n) n := by
  obtain ⟨h1, h2, h3, h4, h5⟩ := h
  by_cases ho : s.Pub.IsOpen
  · rw [Ping_open_eq s n ho]
    have := h4 ho
    exact ⟨le_refl n, by dsimp; omega, by dsimp; omega,
      fun _ => ⟨this.1, by dsimp; omega⟩,
      fun hc => by dsimp at hc; rw [ho] at hc; exact Bool.noConfusion hc⟩
  · rw [Ping_closed_eq s n (by simpa using ho)]
    exact ⟨le_refl n, le_refl n, by dsimp; omega,
      fun _ => ⟨by dsimp; omega, le_refl n⟩, fun hc => by simp at hc⟩

theorem pubInv_recheck (s : Scale) (t n : Int) (h : PubInv s t) (htn : t ≤ n) :
    PubInv (Recheck s n) n := by
  obtain ⟨h1, h2, h3, h4, h5⟩ := h
  unfold Recheck
  by_cases hok : IsOk s n
  · rw [if_pos hok]
    exact ⟨by omega, by omega, by omega, h4, h5⟩
  · rw [if_neg hok]
    have hstale : OkLimit ≤ n - s.LastOk := by
      unfold IsOk at hok
      simp only [decide_eq_true_eq] at hok
      omega
    have hpos : 0 < OkLimit := by norm_num [OkLimit]
    by_cases hp : s.Pub.IsOpen
    · rw [if_pos hp]
      have := h4 hp
      refine ⟨by dsimp; omega, by dsimp; omega, by dsimp; omega, ?_, ?_⟩
      · intro hcontra
        simp at hcontra
      · intro _
        dsimp
        omega
    · rw [if_neg hp]
      exact ⟨by omega, by omega, by omega, h4, h5⟩

theorem pubInv_add (s : Scale) (t n : Int) (w : ℚ) (b : Bool)
    (h : PubInv s t) (htn : t ≤ n) : PubInv (AddMeasurement s w n b).1 n := by
  obtain ⟨hf1, hf2⟩ := AddMeasurement_frame s w n b
  obtain ⟨h1, h2, h3, h4, h5⟩ := h
  unfold PubInv
  rw [hf1, hf2]
  exact ⟨by omega, by omega, by omega, h4, h5⟩

theorem pubInv_setRssi (s : Scale) (t : Int) (r : ℚ) (h : PubInv s t) :
    PubInv (SetRssi s r) t := h

theorem pubInv_setActiveKeg (s : Scale) (t : Int) (k : Int) (b : Bool)
    (h : PubInv s t) : PubInv (SetActiveKeg s k b).1 t := h

theorem loadDataFromStore_frame (s : Scale) (a : Option (List Measurement))
    (b : Option Int) :
    (loadDataFromStore s a b).Pub = s.Pub ∧
      (loadDataFromStore s a b).LastOk = s.LastOk := by
  unfold loadDataFromStore
  cases a <;> cases b <;> exact ⟨rfl, rfl⟩

theorem pubInv_init (N t0 : Int) (a : Option (List Measurement))
    (b : Option Int) : PubInv (NewScale N t0 a b) t0 := by
  obtain ⟨hf1, hf2⟩ := loadDataFromStore_frame (initScale N t0) a b
  unfold NewScale PubInv
  rw [hf1, hf2]
  have hfp : 0 < farPast := by norm_num [farPast]
  refine ⟨by dsimp [initScale]; omega, by dsimp [initScale]; omega,
    by dsimp [initScale]; omega, fun hc => ?_, fun _ => le_refl _⟩
  dsimp [initScale] at hc
  exact Bool.noConfusion hc

theorem pubInv_runOps (ops : List Op) (t : Int) (s : Scale)
    (h : PubInv s t) (ht : timesOk t ops = true) :
    ∃ t2, PubInv (runOps s ops) t2 := by
  induction ops generalizing t s with
  | nil => exact ⟨t, h⟩
  | cons op rest ih =>
      have hstep : runOps s (op :: rest) = runOps (applyOp s op) rest := rfl
      rw [hstep]
      cases op with
      | ping n =>
          have hsplit : t ≤ n ∧ timesOk n rest = true := by
            simpa [timesOk] using ht
          exact ih n _ (pubInv_ping s t n h hsplit.1) hsplit.2
      | recheck n =>
          have hsplit : t ≤ n ∧ timesOk n rest = true := by
            simpa [timesOk] using ht
          exact ih n _ (pubInv_recheck s t n h hsplit.1) hsplit.2
      | add w n b =>
          have hsplit : t ≤ n ∧ timesOk n rest = true := by
            simpa [timesOk] using ht
          exact ih n _ (pubInv_add s t n w b h hsplit.1) hsplit.2
      | setRssi r =>
          have hrest : timesOk t rest = true := by
            simpa [timesOk] using ht
          exact ih t _ (pubInv_setRssi s t r h) hrest
      | setActiveKeg k b =>
          have hrest : timesOk t rest = true := by
            simpa [timesOk] using ht
          exact ih t _ (pubInv_setActiveKeg s t k b h) hrest

/-- **C7 is false as stated.** The initial state — reachable by the empty
operation sequence — is closed with `OpenedAt` and `ClosedAt` both set to
the same far-past sentinel, so `closed_at` is not *strictly* more recent
than `opened_at`. -/
theorem C7_counterexample :
    (runOps (NewScale 1 0 none none) []).Pub.IsOpen = false ∧
      ¬ (runOps (NewScale 1 0 none none) []).Pub.OpenedAt <
          (runOps (NewScale 1 0 none none) []).Pub.ClosedAt := by
  decide

/-- **C7 (amended).** In every state reachable from construction by a
sequence of operations whose clock readings never decrease: if the pub is
open then `opened_at` is strictly more recent than `closed_at`, and if it
is closed then `closed_at` is at least as recent as `opened_at` (equality
occurring in the initial state and when a close fires exactly at the
staleness boundary). -/
theorem C7_amended_open_closed_stamps (N t0 : Int)
    (a : Option (List Measurement)) (b : Option Int) (ops : List Op)
    (h : timesOk t0 ops = true) :
    ((runOps (NewScale N t0 a b) ops).Pub.IsOpen = true →
        (runOps (NewScale N t0 a b) ops).Pub.ClosedAt <
          (runOps (NewScale N t0 a b) ops).Pub.OpenedAt) ∧
      ((runOps (NewScale N t0 a b) ops).Pub.IsOpen = false →
        (runOps (NewScale N t0 a b) ops).Pub.OpenedAt ≤
          (runOps (NewScale N t0 a b) ops).Pub.ClosedAt) := by
  obtain ⟨t2, hInv⟩ := pubInv_runOps ops t0 (NewScale N t0 a b)
    (pubInv_init N t0 a b) h
  exact ⟨fun ho => (hInv.2.2.2.1 ho).1, hInv.2.2.2.2⟩

/-- Witness for the amended C7: a ping opens the pub, a later recheck
closes it again. -/
theorem C7_amended_witness :
    timesOk 0 [Op.ping 5, Op.recheck (OkLimit + 5)] = true ∧
      ((runOps (NewScale 1 0 none none)
            [Op.ping 5, Op.recheck (OkLimit + 5)]).Pub.IsOpen = true →
        (runOps (NewScale 1 0 none none)
            [Op.ping 5, Op.recheck (OkLimit + 5)]).Pub.ClosedAt <
          (runOps (NewScale 1 0 none none)
            [Op.ping 5, Op.recheck (OkLimit + 5)]).Pub.OpenedAt) ∧
      ((runOps (NewScale 1 0 none none)
            [Op.ping 5, Op.recheck (OkLimit + 5)]).Pub.IsOpen = false →
        (runOps (NewScale 1 0 none none)
            [Op.ping 5, Op.recheck (OkLimit + 5)]).Pub.OpenedAt ≤
          (runOps (NewScale 1 0 none none)
            [Op.ping 5, Op.recheck (OkLimit + 5)]).Pub.ClosedAt) :=
  ⟨by decide, (C7_amended_open_closed_stamps 1 0 none none
      [Op.ping 5, Op.recheck (OkLimit + 5)] (by decide)).1,
    (C7_amended_open_closed_stamps 1 0 none none
      [Op.ping 5, Op.recheck (OkLimit + 5)] (by decide)).2⟩

/-- **C10.** In every state reachable from a construction with capacity
`N ≥ 1` (any store pre-seed, any operation sequence) and for every integer
offset — negative ones and the empty-ledger case included — whenever the
guard does not return the sentinel, the physical index
`(index - offset + size).tmod size` computed by `GetMeasurement` lies in
`[0, size)` and therefore names an allocated slot of the backing slice. -/
theorem C10_physical_index_in_range (N t0 : Int)
    (a : Option (List Measurement)) (b : Option Int) (ops : List Op)
    (hN : 1 ≤ N) (k : Int)
    (hguard : ¬ (k > GetValidCount (runOps (NewScale N t0 a b) ops) ∨
        k > (runOps (NewScale N t0 a b) ops).size)) :
    0 ≤ ((runOps (NewScale N t0 a b) ops).index - k +
          (runOps (NewScale N t0 a b) ops).size).tmod
        (runOps (NewScale N t0 a b) ops).size ∧
      ((runOps (NewScale N t0 a b) ops).index - k +
          (runOps (NewScale N t0 a b) ops).size).tmod
        (runOps (NewScale N t0 a b) ops).size <
        (runOps (NewScale N t0 a b) ops).size ∧
      (((runOps (NewScale N t0 a b) ops).index - k +
          (runOps (NewScale N t0 a b) ops).size).tmod
        (runOps (NewScale N t0 a b) ops).size).toNat <
        (runOps (NewScale N t0 a b) ops).Measurements.length := by
  obtain ⟨h1, h2, h3, h4, h5, h6⟩ :=
    ledgerInv_runOps _ ops (ledgerInv_NewScale N t0 a b hN)
  unfold GetValidCount at hguard
  push_neg at hguard
  have hLHS : 0 ≤ (runOps (NewScale N t0 a b) ops).index - k +
      (runOps (NewScale N t0 a b) ops).size := by
    by_cases hidx : (runOps (NewScale N t0 a b) ops).index < 0
    · have := h6 hidx
      omega
    · omega
  rw [Int.tmod_eq_emod hLHS (by omega)]
  have hnz : (runOps (NewScale N t0 a b) ops).size ≠ 0 := by omega
  have hge := Int.emod_nonneg ((runOps (NewScale N t0 a b) ops).index - k +
    (runOps (NewScale N t0 a b) ops).size) hnz
  have hlt := Int.emod_lt_of_pos ((runOps (NewScale N t0 a b) ops).index - k +
    (runOps (NewScale N t0 a b) ops).size)
    (show (0 : Int) < (runOps (NewScale N t0 a b) ops).size by omega)
  refine ⟨hge, hlt, ?_⟩
  omega

/-- Witness for C10: one accepted append into a capacity-2 ledger, read
at offset 0. -/
theorem C10_witness :
    ((1 : Int) ≤ 2 ∧
        ¬ ((0 : Int) > GetValidCount (runOps (NewScale 2 0 none none)
              [Op.add 7000 1 true]) ∨
            (0 : Int) > (runOps (NewScale 2 0 none none)
              [Op.add 7000 1 true]).size)) ∧
      0 ≤ ((runOps (NewScale 2 0 none none) [Op.add 7000 1 true]).index - 0 +
            (runOps (NewScale 2 0 none none) [Op.add 7000 1 true]).size).tmod
          (runOps (NewScale 2 0 none none) [Op.add 7000 1 true]).size ∧
      ((runOps (NewScale 2 0 none none) [Op.add 7000 1 true]).index - 0 +
            (runOps (NewScale 2 0 none none) [Op.add 7000 1 true]).size).tmod
          (runOps (NewScale 2 0 none none) [Op.add 7000 1 true]).size <
        (runOps (NewScale 2 0 none none) [Op.add 7000 1 true]).size ∧
      (((runOps (NewScale 2 0 none none) [Op.add 7000 1 true]).index - 0 +
            (runOps (NewScale 2 0 none none) [Op.add 7000 1 true]).size).tmod
          (runOps (NewScale 2 0 none none) [Op.add 7000 1 true]).size).toNat <
        (runOps (NewScale 2 0 none none) [Op.add 7000 1 true]).Measurements.length :=
  ⟨⟨by decide, by decide⟩,
    C10_physical_index_in_range 2 0 none none [Op.add 7000 1 true]
      (by decide) 0 (by decide)⟩
